import Mathlib

/-!
Verification of the top-languages core of the `github-stats` repository.

The development shallowly embeds the two halves of the program:

* the aggregator `fetchTopLanguages` (src/unnamed/part_001): accumulation of
  per-repository language edges, weight sanitization, the `Math.pow` weighting
  step, normalization to percentages, the retry-with-backoff wrapper and the
  error paths;
* the card renderer (src/unnamed/part_000): `trimTopLanguages`, the layout
  height/width calculations of `renderTopLanguages`, the compact cumulative
  strip of `renderCompactLayout` and the dash segments of
  `renderDonutVerticalLayout`.

JavaScript numbers are modelled as `JSNum`: an exact real for every finite
double, plus distinguished NaN and infinities (negative zero is identified
with zero, and float rounding is idealized away — none of the properties
below depends on it).  Renderer-side arithmetic never leaves the rationals,
so that half of the model is computable.
-/

/-- A JavaScript number (IEEE-754 double), idealized: finite values are exact
reals; NaN and the two infinities are distinguished; negative zero is
identified with zero. -/
inductive JSNum where
  | nan : JSNum
  | posInf : JSNum
  | negInf : JSNum
  | fin : ℝ → JSNum

open JSNum
open Classical

/-- The real number `x` is a (mathematical) integer; used by the `Math.pow`
special cases for negative bases. -/
def IsIntR (x : ℝ) : Prop := ∃ n : ℤ, x = (n : ℝ)

/-- The real number `x` is an odd integer; used by the `Math.pow` special
cases for negative and infinite bases. -/
def IsOddIntR (x : ℝ) : Prop := ∃ n : ℤ, x = (2 * n + 1 : ℤ)

/-- JavaScript `+` on numbers: NaN propagates, opposite infinities give NaN,
an infinity absorbs any finite summand, finite values add exactly. -/
noncomputable def jsAdd : JSNum → JSNum → JSNum
  | nan, _ => nan
  | _, nan => nan
  | posInf, negInf => nan
  | negInf, posInf => nan
  | posInf, _ => posInf
  | _, posInf => posInf
  | negInf, _ => negInf
  | _, negInf => negInf
  | fin a, fin b => fin (a + b)

/-- JavaScript `*` on numbers: NaN propagates, an infinity times zero is NaN,
an infinity times a nonzero value is an infinity of the product sign, finite
values multiply exactly. -/
noncomputable def jsMul : JSNum → JSNum → JSNum
  | nan, _ => nan
  | _, nan => nan
  | posInf, posInf => posInf
  | posInf, negInf => negInf
  | negInf, posInf => negInf
  | negInf, negInf => posInf
  | posInf, fin b => if b = 0 then nan else if 0 < b then posInf else negInf
  | fin a, posInf => if a = 0 then nan else if 0 < a then posInf else negInf
  | negInf, fin b => if b = 0 then nan else if 0 < b then negInf else posInf
  | fin a, negInf => if a = 0 then nan else if 0 < a then negInf else posInf
  | fin a, fin b => fin (a * b)

/-- JavaScript `/` on numbers: NaN propagates, infinity over infinity is NaN,
a finite value over an infinity is zero, a nonzero value over zero is a
signed infinity, zero over zero is NaN, finite values divide exactly. -/
noncomputable def jsDiv : JSNum → JSNum → JSNum
  | nan, _ => nan
  | _, nan => nan
  | posInf, posInf => nan
  | posInf, negInf => nan
  | negInf, posInf => nan
  | negInf, negInf => nan
  | posInf, fin b => if b < 0 then negInf else posInf
  | negInf, fin b => if b < 0 then posInf else negInf
  | fin _, posInf => fin 0
  | fin _, negInf => fin 0
  | fin a, fin b =>
    if b = 0 then (if a = 0 then nan else if 0 < a then posInf else negInf)
    else fin (a / b)

/-- JavaScript `Math.pow`, following the ECMAScript `Number::exponentiate`
case table (with negative zero identified with zero): a NaN exponent gives
NaN; a zero exponent gives 1 for every base, NaN included; afterwards a NaN
base gives NaN; infinite bases and infinite exponents follow the magnitude
rules; a zero base gives 0 for a positive exponent and +infinity for a
negative one — there is no substitution of the base; a positive base with a
finite exponent is real exponentiation; a negative base demands an integer
exponent, with the sign decided by its parity, and is NaN otherwise. -/
noncomputable def jsPow (x y : JSNum) : JSNum :=
  match y with
  | nan => nan
  | fin e =>
    if e = 0 then fin 1
    else
      match x with
      | nan => nan
      | posInf => if 0 < e then posInf else fin 0
      | negInf =>
        if 0 < e then (if IsOddIntR e then negInf else posInf) else fin 0
      | fin b =>
        if b = 0 then (if 0 < e then fin 0 else posInf)
        else if 0 < b then fin (Real.rpow b e)
        else if IsIntR e then fin ((if IsOddIntR e then -1 else 1) * Real.rpow (-b) e)
        else nan
  | posInf =>
    match x with
    | nan => nan
    | posInf => posInf
    | negInf => posInf
    | fin b => if 1 < |b| then posInf else if |b| = 1 then nan else fin 0
  | negInf =>
    match x with
    | nan => nan
    | posInf => fin 0
    | negInf => fin 0
    | fin b => if 1 < |b| then fin 0 else if |b| = 1 then nan else posInf

/-- JavaScript `x || 1` on a number `x` (part_001 line 91): the falsy numbers
0 and NaN are replaced by 1, everything else is kept. -/
noncomputable def jsOrOne : JSNum → JSNum
  | nan => fin 1
  | posInf => posInf
  | negInf => negInf
  | fin a => if a = 0 then fin 1 else fin a

/-- JavaScript `v > 0` on a number `v`: false for NaN. -/
def jsIsPos : JSNum → Prop
  | nan => False
  | posInf => True
  | negInf => False
  | fin a => 0 < a

/-- JavaScript unary negation on numbers. -/
noncomputable def jsNeg : JSNum → JSNum
  | nan => nan
  | posInf => negInf
  | negInf => posInf
  | fin a => fin (-a)

/-- JavaScript `-` on numbers, as used by the sort comparator on line 97. -/
noncomputable def jsSub (a b : JSNum) : JSNum := jsAdd a (jsNeg b)

/-!
Data model of the aggregator (src/unnamed/part_001).  The GraphQL response
shape `repositories.nodes[].languages.edges[]` is mirrored, with `edge.node`
carrying the language name and color and `edge.size` the byte count (a
nonnegative integer in the GraphQL schema).
-/

/-- The `node` object of a language edge: language name and optional color. -/
structure LangNode where
  name : String
  color : Option String

/-- A language edge of a repository: byte size plus the language node. -/
structure LangEdge where
  size : ℕ
  node : LangNode

/-- A repository node: its name and its language edges. -/
structure Repo where
  name : String
  languages : List LangEdge

/-- One entry of `langMap` after accumulation (part_001 lines 75-83):
raw byte size and repository count per language name. -/
structure LangEntry where
  name : String
  color : Option String
  size : ℕ
  count : ℕ
deriving DecidableEq

/-- A language entry after the weighting step overwrote `size`
(part_001 lines 86-88). -/
structure WLang where
  name : String
  color : Option String
  size : JSNum
  count : ℕ

/-- A language entry after normalization added `percent`
(part_001 lines 90-94). -/
structure NLang where
  name : String
  color : Option String
  size : JSNum
  count : ℕ
  percent : JSNum

/-- Inner body of the accumulation loop (part_001 lines 78-81): if the
language is not yet in the map it is created with size 0 and count 0, then
the edge size is added and the count incremented; `langMap` is modelled as an
insertion-ordered association list. -/
def addEdge : List LangEntry → LangEdge → List LangEntry
  | [], e => [⟨e.node.name, e.node.color, e.size, 1⟩]
  | l :: rest, e =>
    if l.name = e.node.name then
      ⟨l.name, l.color, l.size + e.size, l.count + 1⟩ :: rest
    else
      l :: addEdge rest e

/-- The accumulation `forEach` loops of part_001 lines 76-83. -/
def buildLangMap (repoNodes : List Repo) : List LangEntry :=
  repoNodes.foldl (fun m repo => repo.languages.foldl addEdge m) []

/-- The exclusion filter of part_001 lines 72-73: `excludeRepositories` comes
from `common/envs.js`, which is outside src/, so the fixed exclusion list is
taken as an explicit parameter and concatenated with the caller-supplied
`exclude_repo` exactly as the source spreads the two arrays. -/
def filterRepos (excludeRepositories exclude_repo : List String) (repoNodes : List Repo) : List Repo :=
  repoNodes.filter (fun r => ¬ (excludeRepositories ++ exclude_repo).contains r.name)

/-- The weighted size of one language (part_001 line 87):
`Math.pow(lang.size, size_weight) * Math.pow(lang.count, count_weight)`. -/
noncomputable def weightedSize (size_weight count_weight : JSNum) (l : LangEntry) : JSNum :=
  jsMul (jsPow (fin (l.size : ℝ)) size_weight) (jsPow (fin (l.count : ℝ)) count_weight)

/-- The weighting `forEach` of part_001 lines 86-88: `lang.size` is
overwritten with the weighted size. -/
noncomputable def applyWeights (size_weight count_weight : JSNum) (m : List LangEntry) : List WLang :=
  m.map (fun l => ⟨l.name, l.color, weightedSize size_weight count_weight l, l.count⟩)

/-- The total of part_001 line 91:
`Object.values(langMap).reduce((sum, lang) => sum + lang.size, 0) || 1`. -/
noncomputable def totalSize (ws : List WLang) : JSNum :=
  jsOrOne (ws.foldl (fun sum l => jsAdd sum l.size) (fin 0))

/-- The normalization `forEach` of part_001 lines 92-94:
`lang.percent = (lang.size / totalSize) * 100`. -/
noncomputable def normalizePercents (ws : List WLang) : List NLang :=
  ws.map (fun l => ⟨l.name, l.color, l.size, l.count, jsMul (jsDiv l.size (totalSize ws)) (fin 100)⟩)

/-- The sort comparator of part_001 line 97, `(a, b) => b.size - a.size`, as
the stable before-or-equal relation ECMAScript `Array.prototype.sort` derives
from a comparator: `a` may stay before `b` unless the comparator is
positive (a NaN comparator value counts as zero). -/
noncomputable def sizeDescLe (a b : NLang) : Bool :=
  decide (¬ jsIsPos (jsSub b.size a.size))

/-- The descending stable sort of part_001 lines 96-97. -/
noncomputable def sortBySizeDesc (ns : List NLang) : List NLang :=
  ns.mergeSort sizeDescLe

/-- Lines 96-101 reduce the sorted array into an object keyed by the (unique)
language names, preserving the sorted order; the returned table is therefore
modelled as the sorted list itself. -/
noncomputable def topLangsOf (excludeRepositories exclude_repo : List String)
    (size_weight count_weight : JSNum) (repoNodes : List Repo) : List NLang :=
  sortBySizeDesc (normalizePercents (applyWeights size_weight count_weight
    (buildLangMap (filterRepos excludeRepositories exclude_repo repoNodes))))

/-- The `size_weight` sanitization of part_001 line 60:
`isNaN(parseFloat(size_weight)) ? 1 : parseFloat(size_weight)`; for a number
argument `parseFloat` round-trips, so only NaN is replaced by the default 1. -/
noncomputable def sanitizeSizeWeight : JSNum → JSNum
  | nan => fin 1
  | w => w

/-- The `count_weight` sanitization of part_001 line 61, with default 0. -/
noncomputable def sanitizeCountWeight : JSNum → JSNum
  | nan => fin 0
  | w => w

/-!
Fetch stage: the retry wrapper (part_001 lines 42-51) and the error paths of
`fetchTopLanguages` (part_001 lines 53-68).  The network is modelled as a
function from the attempt index to either a transport failure (the rejected
value, carried as a message) or a resolved GraphQL response; alongside the
result, the list of backoff delays actually slept is returned.
-/

/-- A resolved GraphQL response body: `res.data.errors` (present only when
the payload carries a structured error list) and
`res.data.data.user.repositories.nodes`. -/
structure GqlResponse where
  errors : Option (List String)
  nodes : List Repo

/-- The failures `fetchTopLanguages` can raise: `MissingParamError` for an
empty username, `CustomError` (the spec's UpstreamError) with a message for a
missing token or a structured GraphQL error payload, and a raw transport
failure rethrown unchanged out of the retry wrapper. -/
inductive FetchError where
  | missingParam : FetchError
  | customError : String → FetchError
  | transport : String → FetchError
deriving DecidableEq

/-- The retry helper of part_001 lines 42-51: try `fn`; on failure with no
retries left rethrow, otherwise sleep `delayMs`, double it, and recurse with
one retry fewer.  Returns the final outcome together with the delays slept,
in order. -/
def retryWithBackoff (fn : ℕ → Except String GqlResponse) :
    ℕ → ℕ → ℚ → Except String GqlResponse × List ℚ
  | attempt, retries, delayMs =>
    match fn attempt with
    | Except.ok r => (Except.ok r, [])
    | Except.error e =>
      match retries with
      | 0 => (Except.error e, [])
      | r + 1 =>
        let rest := retryWithBackoff fn (attempt + 1) r (delayMs * 2)
        (rest.1, delayMs :: rest.2)

/-- The body of `fetchTopLanguages` (part_001 lines 53-104): reject an empty
username, reject a missing or empty token, sanitize the weights, run the
fetcher through `retryWithBackoff` with its default 3 retries and 500 ms
initial delay, raise `CustomError` on a structured error payload, and
otherwise aggregate, weight, normalize and sort the language table.  A
transport failure surviving the retries propagates unchanged — the source has
no try/catch around the `retryWithBackoff` call. -/
noncomputable def fetchTopLanguages (username : String) (token : Option String)
    (excludeRepositories exclude_repo : List String) (size_weight count_weight : JSNum)
    (net : ℕ → Except String GqlResponse) : Except FetchError (List NLang) × List ℚ :=
  if username = "" then (Except.error FetchError.missingParam, [])
  else
    match token with
    | none => (Except.error (FetchError.customError "GitHub token (PAT_1) not found."), [])
    | some t =>
      if t = "" then (Except.error (FetchError.customError "GitHub token (PAT_1) not found."), [])
      else
        let res := retryWithBackoff net 0 3 500
        match res.1 with
        | Except.error e => (Except.error (FetchError.transport e), res.2)
        | Except.ok body =>
          match body.errors with
          | some es =>
            (Except.error (FetchError.customError (es.head?.getD "GraphQL API error")), res.2)
          | none =>
            (Except.ok (topLangsOf excludeRepositories exclude_repo
              (sanitizeSizeWeight size_weight) (sanitizeCountWeight count_weight) body.nodes), res.2)

/-!
Renderer side (src/unnamed/part_000).  The card works on the language stats
produced by the fetcher; its arithmetic (percent comparisons, pixel spans,
layout heights) never leaves the rationals, so language stats are modelled
here with exact rational percents — the `lang.percent ?? 0` and
`(x || 0)` fallbacks for an absent percent are modelled with an `Option`.
-/

/-- A language stat as the renderer consumes it. -/
structure CardLang where
  name : String
  color : Option String
  size : ℚ
  percent : Option ℚ
deriving DecidableEq

/-- Modelled from the spec: `clampValue` lives in `src/common/ops.js`, which
is not under src/; the spec (§4.2) says "Clamp `requestedCount` to the
inclusive range [1, 20]", so it is modelled as the usual numeric clamp. -/
def clampValue (v lo hi : ℤ) : ℤ := max lo (min v hi)

/-- Modelled from the spec: `lowercaseTrim` lives in `src/common/ops.js`,
which is not under src/; the spec (§4.2) asks for "case-insensitive,
whitespace-trimmed names", so it lower-cases and then trims. -/
def lowercaseTrim (s : String) : String := s.toLower.trim

/-- The maximum displayed language count, part_000 line 19. -/
def MAXIMUM_LANGS_COUNT : ℤ := 20

/-- The trimmer of part_000 lines 85-102: clamp the requested count to
[1, 20], build the hide set from lowercased-trimmed names, sort the table
values descending by their pre-calculated percent (missing percent counts as
0, stable), drop hidden names, and truncate to the clamped count. -/
def trimTopLanguages (topLangs : List CardLang) (langs_count : ℤ)
    (hide : Option (List String)) : List CardLang :=
  let langsCount := clampValue langs_count 1 MAXIMUM_LANGS_COUNT
  let langsToHide := (hide.getD []).map lowercaseTrim
  (((topLangs.mergeSort (fun a b => decide (b.percent.getD 0 ≤ a.percent.getD 0))).filter
      (fun l => ¬ langsToHide.contains (lowercaseTrim l.name))).take langsCount.toNat)

/-- The computed (unfloored) pixel span of one language in the compact strip
(part_000 line 228): `(lang.percent ?? 0) / 100 * offsetWidth` with
`offsetWidth = width - paddingRight` and `paddingRight = 50`. -/
def compactPercentage (width : ℚ) (l : CardLang) : ℚ :=
  l.percent.getD 0 / 100 * (width - 50)

/-- The loop of `renderCompactLayout` (part_000 lines 224-244), returning for
each language the `x` offset and the rendered `width` of its `rect`: the
rendered width is `percentage + 10` when the computed span is under 10, the
offset accumulator advances by the unfloored `percentage`. -/
def compactSpansGo (offsetWidth : ℚ) : ℚ → List CardLang → List (ℚ × ℚ)
  | _, [] => []
  | progressOffset, l :: rest =>
    let percentage := l.percent.getD 0 / 100 * offsetWidth
    let progress := if percentage < 10 then percentage + 10 else percentage
    (progressOffset, progress) :: compactSpansGo offsetWidth (progressOffset + percentage) rest

/-- The cumulative strip of `renderCompactLayout` (part_000 lines 221-244):
one `(x, width)` pair per language, starting from offset 0 with
`offsetWidth = width - 50`. -/
def compactProgressSpans (langs : List CardLang) (width : ℚ) : List (ℚ × ℚ) :=
  compactSpansGo (width - 50) 0 langs

/-- Circumference helper of part_000 line 59: `2 * Math.PI * radius`. -/
noncomputable def getCircleLength (radius : ℝ) : ℝ := 2 * Real.pi * radius

/-- The attributes of one donut-vertical `circle` element
(part_000 lines 275-290): `stroke-dasharray`, `stroke-dashoffset`, the
`size` attribute, and the stagger delay in ms. -/
structure DonutVerticalCircle where
  dashArray : ℝ
  dashOffset : ℝ
  sizeAttr : ℚ
  delay : ℕ

/-- The `langs.map` of `renderDonutVerticalLayout` (part_000 lines 263-292),
carried out with the two accumulators `indent` and `startDelayCoefficient`.
The emitted attributes are `stroke-dasharray="totalCircleLength"` (the whole
circumference, not the segment length) and `stroke-dashoffset="indent"`; the
source statement `indent += circleLength` sits after the `return` of the
callback (line 291) and never executes, so the recursive call passes `indent`
unchanged, while `startDelayCoefficient += 1` sits before the `return` and
does run. -/
noncomputable def donutVerticalGo (totalCircleLength : ℝ) :
    ℝ → ℕ → List CardLang → List DonutVerticalCircle
  | _, _, [] => []
  | indent, coeff, l :: rest =>
    let percentage := l.percent.getD 0
    let delay := coeff * 100
    ⟨totalCircleLength, indent, percentage, delay⟩ ::
      donutVerticalGo totalCircleLength indent (coeff + 1) rest

/-- The circles of `renderDonutVerticalLayout` for a trimmed language list:
radius 80, `indent` starting at 0 and `startDelayCoefficient` starting at 1. -/
noncomputable def renderDonutVerticalCircles (langs : List CardLang) : List DonutVerticalCircle :=
  donutVerticalGo (getCircleLength 80) 0 1 langs

/-- The intended dash segment length of one donut-vertical language
(part_000 line 271): `totalCircleLength * (percentage / 100)`; the source
computes it into `circleLength` but only the dead statement after the
`return` ever uses it. -/
noncomputable def donutVerticalCircleLength (l : CardLang) : ℝ :=
  getCircleLength 80 * ((l.percent.getD 0 : ℚ) / 100 : ℚ)

/-!
Canvas dimensions of `renderTopLanguages` (part_000 lines 14-24, 64-77 and
443-503).
-/

/-- Default card width, part_000 line 14. -/
def DEFAULT_CARD_WIDTH : ℤ := 300

/-- Minimum card width, part_000 line 15. -/
def MIN_CARD_WIDTH : ℤ := 280

/-- Compact layout base height, part_000 line 18. -/
def COMPACT_LAYOUT_BASE_HEIGHT : ℤ := 90

/-- Height of the compact layout, part_000 lines 64-65:
`90 + Math.round(totalLangs / 2) * 25`. -/
def calculateCompactLayoutHeight (totalLangs : ℕ) : ℤ :=
  COMPACT_LAYOUT_BASE_HEIGHT + round ((totalLangs : ℚ) / 2) * 25

/-- Height of the normal layout, part_000 lines 67-68:
`45 + (totalLangs + 1) * 40`. -/
def calculateNormalLayoutHeight (totalLangs : ℕ) : ℤ :=
  45 + ((totalLangs : ℤ) + 1) * 40

/-- Height of the donut layout, part_000 lines 70-71:
`215 + Math.max(totalLangs - 5, 0) * 32`. -/
def calculateDonutLayoutHeight (totalLangs : ℕ) : ℤ :=
  215 + max ((totalLangs : ℤ) - 5) 0 * 32

/-- Height of the donut-vertical layout, part_000 lines 73-74. -/
def calculateDonutVerticalLayoutHeight (totalLangs : ℕ) : ℤ :=
  300 + round ((totalLangs : ℚ) / 2) * 25

/-- Height of the pie layout, part_000 lines 76-77. -/
def calculatePieLayoutHeight (totalLangs : ℕ) : ℤ :=
  300 + round ((totalLangs : ℚ) / 2) * 25

/-- Width resolution of part_000 lines 468-474: an absent or NaN
`card_width` (modelled as `none`) and the falsy width 0 give the default 300,
a width under 280 is raised to the minimum 280, anything else is kept. -/
def resolveCardWidth : Option ℤ → ℤ
  | none => DEFAULT_CARD_WIDTH
  | some c =>
    if c = 0 then DEFAULT_CARD_WIDTH
    else if c < MIN_CARD_WIDTH then MIN_CARD_WIDTH else c

/-- The rendered canvas dimensions. -/
structure RenderDims where
  width : ℤ
  height : ℤ
deriving DecidableEq

/-- The dimension logic of `renderTopLanguages` (part_000 lines 476-503) for
a trimmed list of `n` languages: the zero-language case forces the compact
base height; pie and donut-vertical use their heights; `compact` layout or a
hidden progress bar uses the compact height, 25 lower when progress is
hidden; `donut` widens the card by 50; anything else is the normal layout. -/
def renderTopLanguagesDims (layout : Option String) (hide_progress : Bool)
    (card_width : Option ℤ) (n : ℕ) : RenderDims :=
  let width := resolveCardWidth card_width
  if n = 0 then ⟨width, COMPACT_LAYOUT_BASE_HEIGHT⟩
  else if layout = some "pie" then ⟨width, calculatePieLayoutHeight n⟩
  else if layout = some "donut-vertical" then ⟨width, calculateDonutVerticalLayoutHeight n⟩
  else if layout = some "compact" ∨ hide_progress then
    ⟨width, calculateCompactLayoutHeight n + (if hide_progress then -25 else 0)⟩
  else if layout = some "donut" then ⟨width + 50, calculateDonutLayoutHeight n⟩
  else ⟨width, calculateNormalLayoutHeight n⟩

/-!
Spec-side definitions, written from the specification's words for comparison
with the code model, plus small helper predicates.
-/

/-- Modelled from the spec's words (§4.1 step 8) for comparison with
`weightedSize`: a factor is exactly 1 when its weight is exactly 0; otherwise
a base of 0 is replaced by 1 before exponentiating; otherwise the factor is
the base raised to the weight. -/
noncomputable def specWeightFactor (base weight : ℝ) : ℝ :=
  if weight = 0 then 1 else Real.rpow (if base = 0 then 1 else base) weight

/-- Modelled from the spec's words (§4.1 step 8) for comparison with
`weightedSize`: `f(size, sizeWeight) * g(count, countWeight)`. -/
noncomputable def specWeightedSize (sizeWeight countWeight : ℝ) (l : LangEntry) : ℝ :=
  specWeightFactor (l.size : ℝ) sizeWeight * specWeightFactor (l.count : ℝ) countWeight

/-- Modelled from the spec's words (§4.1 step 9) for comparison with the
code's percent: rounding to 2 decimal places. -/
noncomputable def specRound2 (x : ℝ) : ℝ := (round (x * 100) : ℤ) / 100

/-- A JavaScript number that is finite and nonnegative, the shape the spec's
invariants (§3) claim for every `size` and `percent`. -/
def IsFiniteNonneg : JSNum → Prop
  | fin x => 0 ≤ x
  | _ => False

/-!
Helper lemmas about the `JSNum` arithmetic.
-/

theorem jsPow_exp_zero (x : JSNum) : jsPow x (fin 0) = fin 1 := by
  cases x <;> simp [jsPow]

theorem jsMul_fin_one (x : JSNum) : jsMul x (fin 1) = x := by
  cases x <;> norm_num [jsMul]

theorem jsPow_nat_nonneg (n : ℕ) (w : ℝ) (hw : 0 ≤ w) :
    ∃ s : ℝ, jsPow (fin (n : ℝ)) (fin w) = fin s ∧ 0 ≤ s := by
  by_cases hw0 : w = 0
  · exact ⟨1, by simp [jsPow, hw0], by norm_num⟩
  · have hwpos : 0 < w := lt_of_le_of_ne hw (Ne.symm hw0)
    by_cases hn : (n : ℝ) = 0
    · exact ⟨0, by simp [jsPow, hw0, hn, hwpos], le_refl 0⟩
    · have hnpos : 0 < (n : ℝ) := lt_of_le_of_ne (Nat.cast_nonneg n) (Ne.symm hn)
      refine ⟨Real.rpow (n : ℝ) w, ?_, Real.rpow_nonneg (Nat.cast_nonneg n) w⟩
      simp [jsPow, hw0, hn, hnpos, not_lt.mpr (le_of_lt hnpos)]

theorem weightedSize_fin_nonneg (l : LangEntry) (sw cw : ℝ) (hsw : 0 ≤ sw) (hcw : 0 ≤ cw) :
    ∃ s : ℝ, weightedSize (fin sw) (fin cw) l = fin s ∧ 0 ≤ s := by
  obtain ⟨s1, hs1, hs1n⟩ := jsPow_nat_nonneg l.size sw hsw
  obtain ⟨s2, hs2, hs2n⟩ := jsPow_nat_nonneg l.count cw hcw
  exact ⟨s1 * s2, by simp [weightedSize, hs1, hs2, jsMul], mul_nonneg hs1n hs2n⟩

theorem foldl_jsAdd_fin (ws : List WLang) (f : WLang → ℝ)
    (hf : ∀ w ∈ ws, w.size = fin (f w)) :
    ∀ a : ℝ, ws.foldl (fun sum l => jsAdd sum l.size) (fin a) =
      fin (a + (ws.map f).sum) := by
  induction ws with
  | nil => intro a; simp
  | cons w rest ih =>
    intro a
    have hw : w.size = fin (f w) := hf w (List.mem_cons_self w rest)
    have hrest : ∀ x ∈ rest, x.size = fin (f x) := fun x hx => hf x (List.mem_cons_of_mem w hx)
    have hstep : jsAdd (fin a) w.size = fin (a + f w) := by rw [hw]; rfl
    rw [List.foldl_cons, hstep, ih hrest (a + f w), List.map_cons, List.sum_cons, add_assoc]

theorem mem_sortBySizeDesc (ns : List NLang) (e : NLang) :
    e ∈ sortBySizeDesc ns ↔ e ∈ ns :=
  (List.mergeSort_perm ns sizeDescLe).mem_iff

theorem sortBySizeDesc_singleton (e : NLang) : sortBySizeDesc [e] = [e] :=
  List.perm_singleton.mp (List.mergeSort_perm [e] sizeDescLe)

theorem foldl_jsAdd_bounds (ws : List WLang)
    (h : ∀ w ∈ ws, ∃ s : ℝ, w.size = fin s ∧ 0 ≤ s) :
    ∀ a : ℝ, 0 ≤ a →
      ∃ T : ℝ, ws.foldl (fun sum l => jsAdd sum l.size) (fin a) = fin T ∧
        a ≤ T ∧ ∀ w ∈ ws, ∀ s : ℝ, w.size = fin s → s ≤ T := by
  induction ws with
  | nil => intro a _; exact ⟨a, by simp, le_refl a, by simp⟩
  | cons w rest ih =>
    intro a ha
    obtain ⟨s, hs, hsn⟩ := h w (List.mem_cons_self w rest)
    have hrest : ∀ x ∈ rest, ∃ s : ℝ, x.size = fin s ∧ 0 ≤ s :=
      fun x hx => h x (List.mem_cons_of_mem w hx)
    obtain ⟨T, hT, haT, hbound⟩ := ih hrest (a + s) (add_nonneg ha hsn)
    have hstep : jsAdd (fin a) w.size = fin (a + s) := by rw [hs]; rfl
    refine ⟨T, ?_, le_trans (le_add_of_nonneg_right hsn) haT, ?_⟩
    · rw [List.foldl_cons, hstep, hT]
    · intro x hx sx hsx
      rcases List.mem_cons.mp hx with hxw | hxr
      · have : fin s = fin sx := by rw [← hs, ← hxw]; exact hsx
        have hssx : s = sx := by injection this
        exact hssx ▸ le_trans (le_add_of_nonneg_left ha) haT
      · exact hbound x hxr sx hsx

theorem totalSize_fin_pos (ws : List WLang)
    (h : ∀ w ∈ ws, ∃ s : ℝ, w.size = fin s ∧ 0 ≤ s) :
    ∃ t : ℝ, totalSize ws = fin t ∧ 0 < t ∧
      ∀ w ∈ ws, ∀ s : ℝ, w.size = fin s → 0 ≤ s → s ≤ t := by
  obtain ⟨T, hT, hT0, hbound⟩ := foldl_jsAdd_bounds ws h 0 (le_refl 0)
  by_cases hz : T = 0
  · refine ⟨1, ?_, by norm_num, ?_⟩
    · rw [totalSize, hT, hz]; simp [jsOrOne]
    · intro w hw s hs _
      have := hbound w hw s hs
      linarith [this, hz ▸ this]
  · refine ⟨T, ?_, lt_of_le_of_ne hT0 (Ne.symm hz), fun w hw s hs _ => hbound w hw s hs⟩
    rw [totalSize, hT]; simp [jsOrOne, hz]

theorem topLangs_entry_fin (excl exr : List String) (repos : List Repo) (sw cw : ℝ)
    (hsw : 0 ≤ sw) (hcw : 0 ≤ cw) (e : NLang)
    (he : e ∈ topLangsOf excl exr (fin sw) (fin cw) repos) :
    ∃ s t : ℝ, e.size = fin s ∧ 0 ≤ s ∧
      totalSize (applyWeights (fin sw) (fin cw)
        (buildLangMap (filterRepos excl exr repos))) = fin t ∧
      0 < t ∧ s ≤ t ∧ e.percent = fin (s / t * 100) := by
  rw [topLangsOf, mem_sortBySizeDesc] at he
  set ws := applyWeights (fin sw) (fin cw) (buildLangMap (filterRepos excl exr repos)) with hws
  have hfin : ∀ w ∈ ws, ∃ s : ℝ, w.size = fin s ∧ 0 ≤ s := by
    intro w hw
    rw [hws, applyWeights] at hw
    obtain ⟨l, _, hl⟩ := List.mem_map.mp hw
    obtain ⟨s, hs, hsn⟩ := weightedSize_fin_nonneg l sw cw hsw hcw
    exact ⟨s, by rw [← hl]; exact hs, hsn⟩
  obtain ⟨t, ht, htpos, hbound⟩ := totalSize_fin_pos ws hfin
  rw [normalizePercents] at he
  obtain ⟨w, hwmem, hwe⟩ := List.mem_map.mp he
  obtain ⟨s, hs, hsn⟩ := hfin w hwmem
  refine ⟨s, t, ?_, hsn, ht, htpos, hbound w hwmem s hs hsn, ?_⟩
  · rw [← hwe]; exact hs
  · rw [← hwe]
    have hdiv : jsDiv w.size (totalSize ws) = fin (s / t) := by
      rw [hs, ht, jsDiv]
      simp [ne_of_gt htpos]
    show jsMul (jsDiv w.size (totalSize ws)) (fin 100) = fin (s / t * 100)
    rw [hdiv]; rfl

theorem addEdge_count (m : List LangEntry) (e : LangEdge)
    (h : ∀ l ∈ m, 1 ≤ l.count) : ∀ l ∈ addEdge m e, 1 ≤ l.count := by
  induction m with
  | nil => intro l hl; simp only [addEdge, List.mem_singleton] at hl; subst hl; exact le_refl 1
  | cons x rest ih =>
    intro l hl
    rw [addEdge] at hl
    by_cases hx : x.name = e.node.name
    · rw [if_pos hx] at hl
      rcases List.mem_cons.mp hl with h1 | h2
      · subst h1; exact le_trans (h x (List.mem_cons_self x rest)) (Nat.le_succ_of_le (le_refl _))
      · exact h l (List.mem_cons_of_mem x h2)
    · rw [if_neg hx] at hl
      rcases List.mem_cons.mp hl with h1 | h2
      · subst h1; exact h l (List.mem_cons_self l rest)
      · exact ih (fun y hy => h y (List.mem_cons_of_mem x hy)) l h2

theorem foldl_addEdge_count (edges : List LangEdge) :
    ∀ m : List LangEntry, (∀ l ∈ m, 1 ≤ l.count) →
      ∀ l ∈ edges.foldl addEdge m, 1 ≤ l.count := by
  induction edges with
  | nil => intro m hm; simpa using hm
  | cons e rest ih =>
    intro m hm
    rw [List.foldl_cons]
    exact ih (addEdge m e) (addEdge_count m e hm)

theorem buildLangMap_count (repoNodes : List Repo) :
    ∀ l ∈ buildLangMap repoNodes, 1 ≤ l.count := by
  rw [buildLangMap]
  generalize hm : ([] : List LangEntry) = m
  have hm1 : ∀ l ∈ m, 1 ≤ l.count := by rw [← hm]; simp
  clear hm
  induction repoNodes generalizing m with
  | nil => simpa using hm1
  | cons r rest ih =>
    rw [List.foldl_cons]
    exact ih (r.languages.foldl addEdge m) (foldl_addEdge_count r.languages m hm1)

theorem topLangs_entry_src (excl exr : List String) (sw cw : JSNum) (repos : List Repo)
    (e : NLang) (he : e ∈ topLangsOf excl exr sw cw repos) :
    ∃ l ∈ buildLangMap (filterRepos excl exr repos),
      e.name = l.name ∧ e.count = l.count ∧ e.size = weightedSize sw cw l := by
  rw [topLangsOf, mem_sortBySizeDesc, normalizePercents] at he
  obtain ⟨w, hw, hwe⟩ := List.mem_map.mp he
  rw [applyWeights] at hw
  obtain ⟨l, hl, hlw⟩ := List.mem_map.mp hw
  refine ⟨l, hl, ?_, ?_, ?_⟩ <;> rw [← hwe, ← hlw]

/-!
Concrete fixtures used by the counterexamples and witnesses.
-/

/-- A repository with a single zero-size language edge. -/
def repoA0 : Repo := ⟨"r", [⟨0, ⟨"A", none⟩⟩]⟩

/-- A repository with three one-byte language edges. -/
def repoABC : Repo := ⟨"r", [⟨1, ⟨"A", none⟩⟩, ⟨1, ⟨"B", none⟩⟩, ⟨1, ⟨"C", none⟩⟩]⟩

/-- The table entry the pipeline produces for `repoA0` under the default
weights 1 and 0. -/
noncomputable def entryA0 : NLang := ⟨"A", none, fin 0, 1, fin 0⟩

theorem topLangs_repoA0 : topLangsOf [] [] (fin 1) (fin 0) [repoA0] = [entryA0] := by
  have h1 : buildLangMap (filterRepos [] [] [repoA0]) = [⟨"A", none, 0, 1⟩] := by
    simp [filterRepos, buildLangMap, addEdge, repoA0]
  have h2 : applyWeights (fin 1) (fin 0) [⟨"A", none, 0, 1⟩] = [⟨"A", none, fin 0, 1⟩] := by
    norm_num [applyWeights, weightedSize, jsPow, jsMul]
  have h3 : normalizePercents [(⟨"A", none, fin 0, 1⟩ : WLang)] = [entryA0] := by
    norm_num [normalizePercents, totalSize, jsAdd, jsOrOne, jsDiv, jsMul, entryA0]
  rw [topLangsOf, h1, h2, h3, sortBySizeDesc_singleton]

/-- The table entry the pipeline produces for language A of `repoABC` under
the default weights: an exact third of 100, not a 2-decimal rounding. -/
noncomputable def entryAThird : NLang := ⟨"A", none, fin 1, 1, fin (100 / 3)⟩

theorem mem_topLangs_repoABC : entryAThird ∈ topLangsOf [] [] (fin 1) (fin 0) [repoABC] := by
  rw [topLangsOf, mem_sortBySizeDesc]
  have h1 : buildLangMap (filterRepos [] [] [repoABC]) =
      [⟨"A", none, 1, 1⟩, ⟨"B", none, 1, 1⟩, ⟨"C", none, 1, 1⟩] := by
    simp [filterRepos, buildLangMap, addEdge, repoABC]
  have h2 : applyWeights (fin 1) (fin 0)
      [⟨"A", none, 1, 1⟩, ⟨"B", none, 1, 1⟩, ⟨"C", none, 1, 1⟩] =
      [⟨"A", none, fin 1, 1⟩, ⟨"B", none, fin 1, 1⟩, ⟨"C", none, fin 1, 1⟩] := by
    norm_num [applyWeights, weightedSize, jsPow, jsMul, Real.one_rpow]
  have h3 : normalizePercents
      [(⟨"A", none, fin 1, 1⟩ : WLang), ⟨"B", none, fin 1, 1⟩, ⟨"C", none, fin 1, 1⟩] =
      [entryAThird, ⟨"B", none, fin 1, 1, fin (100 / 3)⟩, ⟨"C", none, fin 1, 1, fin (100 / 3)⟩] := by
    norm_num [normalizePercents, totalSize, jsAdd, jsOrOne, jsDiv, jsMul, entryAThird]
  rw [h1, h2, h3]
  simp

/-- A network that fails with the same transport error on every attempt. -/
def netFail : ℕ → Except String GqlResponse := fun _ => Except.error "ECONNRESET"

/-- A network that resolves on the first attempt with an error-free empty
repository list. -/
def netOkEmpty : ℕ → Except String GqlResponse := fun _ => Except.ok ⟨none, []⟩

/-- A network that resolves on the first attempt with a structured GraphQL
error payload. -/
def netGqlErrors : ℕ → Except String GqlResponse := fun _ => Except.ok ⟨some ["boom"], []⟩

/-- The failure is a `CustomError` (the structured upstream error class). -/
def IsCustomError : FetchError → Prop
  | FetchError.customError _ => True
  | _ => False

/-!
Claim C1 — the weighting formula.
-/

/-- C1 is false as stated: the weighting step performs no base-0
substitution.  For a language accumulated with size 0 and count 1 and the
valid weights sizeWeight = 1, countWeight = 0, the claim's formula gives
f(0,1) * g(1,0) = (1 raised to 1) * 1 = 1, but the code stores
Math.pow(0,1) * Math.pow(1,0) = 0 as the weighted size. -/
theorem c1_counterexample :
    topLangsOf [] [] (fin 1) (fin 0) [repoA0] = [entryA0] ∧
    entryA0.size = fin 0 ∧
    buildLangMap (filterRepos [] [] [repoA0]) = [⟨"A", none, 0, 1⟩] ∧
    specWeightedSize 1 0 ⟨"A", none, 0, 1⟩ = 1 ∧
    fin (0 : ℝ) ≠ fin (1 : ℝ) := by
  refine ⟨topLangs_repoA0, rfl, ?_, ?_, ?_⟩
  · simp [filterRepos, buildLangMap, addEdge, repoA0]
  · norm_num [specWeightedSize, specWeightFactor, Real.one_rpow]
  · simp

/-- C1 (amended): the weighted size is
`Math.pow(size, sizeWeight) * Math.pow(count, countWeight)`, where a factor
is exactly 1 whenever its weight is exactly 0, regardless of the base; but
there is no base-0 substitution: a zero base with a positive weight gives
factor 0 and with a negative weight gives +infinity.  In particular, when
countWeight = 0 the weighted size of every language equals
`Math.pow(size, sizeWeight)` exactly. -/
theorem c1_weighting_amended :
    (∀ x : JSNum, jsPow x (fin 0) = fin 1) ∧
    (∀ (l : LangEntry) (sw : JSNum),
      weightedSize sw (fin 0) l = jsPow (fin (l.size : ℝ)) sw) ∧
    (∀ w : ℝ, 0 < w → jsPow (fin 0) (fin w) = fin 0) ∧
    (∀ w : ℝ, w < 0 → jsPow (fin 0) (fin w) = posInf) := by
  refine ⟨jsPow_exp_zero, ?_, ?_, ?_⟩
  · intro l sw
    rw [weightedSize, jsPow_exp_zero, jsMul_fin_one]
  · intro w hw
    simp [jsPow, ne_of_gt hw, hw]
  · intro w hw
    simp [jsPow, ne_of_lt hw, not_lt.mpr (le_of_lt hw)]

/-- Witness for the amended C1 at concrete inputs. -/
theorem c1_weighting_amended_witness :
    jsPow nan (fin 0) = fin 1 ∧
    weightedSize (fin 2) (fin 0) ⟨"A", none, 3, 1⟩ = jsPow (fin ((3 : ℕ) : ℝ)) (fin 2) ∧
    jsPow (fin 0) (fin 1) = fin 0 ∧
    jsPow (fin 0) (fin (-1)) = posInf :=
  ⟨c1_weighting_amended.1 nan,
    c1_weighting_amended.2.1 ⟨"A", none, 3, 1⟩ (fin 2),
    c1_weighting_amended.2.2.1 1 (by norm_num),
    c1_weighting_amended.2.2.2 (-1) (by norm_num)⟩

/-!
Claim C2 — normalization to percentages.
-/

/-- C2 is false as stated: percents are not rounded to 2 decimal places.
Three languages of one byte each give every language the exact percent
100/3, whereas rounding to 2 decimals would give 33.33, a different real
number. -/
theorem c2_counterexample :
    entryAThird ∈ topLangsOf [] [] (fin 1) (fin 0) [repoABC] ∧
    entryAThird.percent = fin (100 / 3) ∧
    specRound2 (100 / 3) = 3333 / 100 ∧
    (100 / 3 : ℝ) ≠ 3333 / 100 := by
  refine ⟨mem_topLangs_repoABC, rfl, ?_, by norm_num⟩
  rw [specRound2]
  have h : round ((100 / 3 : ℝ) * 100) = 3333 := by
    rw [round_eq]; norm_num
  rw [h]; norm_num

/-- C2 (amended): the percent of every language in the returned table is
exactly `weightedSize / total * 100`, with no rounding; the total is the sum
of the weighted sizes, and the code substitutes 1 for it exactly when the
sum is falsy (0 or NaN), not when it is merely nonpositive; under finite
nonnegative weights every percent lies between 0 and 100. -/
theorem c2_normalization_amended (excl exr : List String) (repos : List Repo)
    (sw cw : ℝ) (hsw : 0 ≤ sw) (hcw : 0 ≤ cw) :
    (jsOrOne (fin 0) = fin 1 ∧ jsOrOne nan = fin 1 ∧
      ∀ x : ℝ, x ≠ 0 → jsOrOne (fin x) = fin x) ∧
    ∀ e ∈ topLangsOf excl exr (fin sw) (fin cw) repos,
      ∃ s t : ℝ, e.size = fin s ∧
        totalSize (applyWeights (fin sw) (fin cw)
          (buildLangMap (filterRepos excl exr repos))) = fin t ∧
        0 < t ∧ e.percent = fin (s / t * 100) ∧
        0 ≤ s / t * 100 ∧ s / t * 100 ≤ 100 := by
  refine ⟨⟨by simp [jsOrOne], rfl, fun x hx => by simp [jsOrOne, hx]⟩, ?_⟩
  intro e he
  obtain ⟨s, t, hs, hsn, ht, htpos, hst, hp⟩ :=
    topLangs_entry_fin excl exr repos sw cw hsw hcw e he
  refine ⟨s, t, hs, ht, htpos, hp, ?_, ?_⟩
  · exact mul_nonneg (div_nonneg hsn (le_of_lt htpos)) (by norm_num)
  · have h1 : s / t ≤ 1 := (div_le_one htpos).mpr hst
    linarith

/-- Witness for the amended C2 at a concrete input: three one-byte
languages, weights 1 and 0. -/
theorem c2_normalization_amended_witness :
    (jsOrOne (fin 0) = fin 1 ∧ jsOrOne nan = fin 1 ∧
      ∀ x : ℝ, x ≠ 0 → jsOrOne (fin x) = fin x) ∧
    ∃ s t : ℝ, entryAThird.size = fin s ∧
      totalSize (applyWeights (fin 1) (fin 0)
        (buildLangMap (filterRepos [] [] [repoABC]))) = fin t ∧
      0 < t ∧ entryAThird.percent = fin (s / t * 100) ∧
      0 ≤ s / t * 100 ∧ s / t * 100 ≤ 100 :=
  ⟨(c2_normalization_amended [] [] [repoABC] 1 0 (by norm_num) (by norm_num)).1,
    (c2_normalization_amended [] [] [repoABC] 1 0 (by norm_num) (by norm_num)).2
      entryAThird mem_topLangs_repoABC⟩

/-!
Claim C3 — finiteness of the returned values.
-/

/-- C3 is false as stated: there is no final defensive pass, and a
successful return can carry a non-finite size and a NaN percent.  With the
valid parsed weight sizeWeight = -1 (negative values survive sanitization)
and a single language of size 0, the weighted size is
Math.pow(0,-1) * Math.pow(1,0) = +infinity and the percent is
infinity / infinity * 100 = NaN. -/
theorem c3_counterexample :
    (fetchTopLanguages "octocat" (some "tok") [] [] (fin (-1)) (fin 0)
        (fun _ => Except.ok ⟨none, [repoA0]⟩)).1 =
      Except.ok [⟨"A", none, posInf, 1, nan⟩] ∧
    ¬ IsFiniteNonneg posInf ∧ ¬ IsFiniteNonneg nan := by
  refine ⟨?_, by simp [IsFiniteNonneg], by simp [IsFiniteNonneg]⟩
  have h1 : buildLangMap (filterRepos [] [] [repoA0]) = [⟨"A", none, 0, 1⟩] := by
    simp [filterRepos, buildLangMap, addEdge, repoA0]
  have h2 : applyWeights (fin (-1)) (fin 0) [⟨"A", none, 0, 1⟩] =
      [⟨"A", none, posInf, 1⟩] := by
    norm_num [applyWeights, weightedSize, jsPow, jsMul]
  have h3 : normalizePercents [(⟨"A", none, posInf, 1⟩ : WLang)] =
      [⟨"A", none, posInf, 1, nan⟩] := by
    norm_num [normalizePercents, totalSize, jsAdd, jsOrOne, jsDiv, jsMul]
  simp only [fetchTopLanguages, retryWithBackoff]
  norm_num +decide [topLangsOf, h1, h2, h3, sortBySizeDesc_singleton,
    sanitizeSizeWeight, sanitizeCountWeight]

/-- C3 (amended): the code has no defensive sanitization pass; nevertheless,
whenever both weights are finite and nonnegative, every size and every
percent in the returned table is finite and nonnegative, for any input
including all-zero sizes. -/
theorem c3_finiteness_amended (excl exr : List String) (repos : List Repo)
    (sw cw : ℝ) (hsw : 0 ≤ sw) (hcw : 0 ≤ cw) :
    ∀ e ∈ topLangsOf excl exr (fin sw) (fin cw) repos,
      IsFiniteNonneg e.size ∧ IsFiniteNonneg e.percent := by
  intro e he
  obtain ⟨s, t, hs, hsn, _, htpos, _, hp⟩ :=
    topLangs_entry_fin excl exr repos sw cw hsw hcw e he
  constructor
  · rw [hs]; simpa [IsFiniteNonneg] using hsn
  · rw [hp]
    simpa [IsFiniteNonneg] using
      mul_nonneg (div_nonneg hsn (le_of_lt htpos)) (by norm_num : (0 : ℝ) ≤ 100)

/-- Witness for the amended C3: the all-zero-size input `repoA0` under the
default weights. -/
theorem c3_finiteness_amended_witness :
    IsFiniteNonneg entryA0.size ∧ IsFiniteNonneg entryA0.percent :=
  c3_finiteness_amended [] [] [repoA0] 1 0 (by norm_num) (by norm_num) entryA0
    (by rw [topLangs_repoA0]; exact List.mem_singleton.mpr rfl)

/-!
Claim C4 — weight sanitization.
-/

/-- C4 is false as stated: a negative parsed weight is not replaced by the
default.  The parsed value -2 is kept for both weights, and -2 differs from
both defaults. -/
theorem c4_counterexample :
    sanitizeSizeWeight (fin (-2)) = fin (-2) ∧
    sanitizeCountWeight (fin (-2)) = fin (-2) ∧
    fin (-2 : ℝ) ≠ fin (1 : ℝ) ∧
    fin (-2 : ℝ) ≠ fin (0 : ℝ) := by
  refine ⟨rfl, rfl, ?_, by simp⟩
  simp only [ne_eq, JSNum.fin.injEq]
  norm_num

/-- C4 (amended): the weights are parsed as floating point and replaced by
the defaults (1 for sizeWeight, 0 for countWeight) exactly when parsing
fails, that is when the parsed value is NaN; negative parsed values are kept
as-is; on the successful path the sanitized values are the ones the
weighting step receives. -/
theorem c4_sanitize_amended :
    sanitizeSizeWeight nan = fin 1 ∧
    sanitizeCountWeight nan = fin 0 ∧
    (∀ x : ℝ, sanitizeSizeWeight (fin x) = fin x ∧ sanitizeCountWeight (fin x) = fin x) ∧
    (∀ (username t : String) (excl exr : List String) (sw cw : JSNum)
        (net : ℕ → Except String GqlResponse) (body : GqlResponse),
      username ≠ "" → t ≠ "" → net 0 = Except.ok body → body.errors = none →
      (fetchTopLanguages username (some t) excl exr sw cw net).1 =
        Except.ok (topLangsOf excl exr (sanitizeSizeWeight sw)
          (sanitizeCountWeight cw) body.nodes)) := by
  refine ⟨rfl, rfl, fun x => ⟨rfl, rfl⟩, ?_⟩
  intro username t excl exr sw cw net body hu ht hnet herr
  rw [fetchTopLanguages]
  rw [if_neg hu]
  simp only [retryWithBackoff, hnet, herr, if_neg ht]

/-- Witness for the amended C4 at concrete inputs: weights 2 and 3 pass
through sanitization into the aggregation of an empty repository list. -/
theorem c4_sanitize_amended_witness :
    sanitizeSizeWeight nan = fin 1 ∧
    sanitizeCountWeight nan = fin 0 ∧
    (sanitizeSizeWeight (fin 2) = fin 2 ∧ sanitizeCountWeight (fin 2) = fin 2) ∧
    (fetchTopLanguages "octocat" (some "tok") [] [] (fin 2) (fin 3) netOkEmpty).1 =
      Except.ok (topLangsOf [] [] (sanitizeSizeWeight (fin 2))
        (sanitizeCountWeight (fin 3)) []) :=
  ⟨c4_sanitize_amended.1, c4_sanitize_amended.2.1, c4_sanitize_amended.2.2.1 2,
    c4_sanitize_amended.2.2.2 "octocat" "tok" [] [] (fin 2) (fin 3) netOkEmpty
      ⟨none, []⟩ (by decide) (by decide) rfl rfl⟩

/-!
Claim C6 — retry policy and error surfacing.
-/

theorem retryWithBackoff_exhausted (net : ℕ → Except String GqlResponse) (e : ℕ → String)
    (h : ∀ k, k ≤ 3 → net k = Except.error (e k)) :
    retryWithBackoff net 0 3 500 = (Except.error (e 3), [500, 1000, 2000]) := by
  have h0 := h 0 (by norm_num)
  have h1 := h 1 (by norm_num)
  have h2 := h 2 (by norm_num)
  have h3 := h 3 (by norm_num)
  norm_num [retryWithBackoff, h0, h1, h2, h3]

/-- C6 is false as stated: when all 4 attempts fail the raw transport
failure is rethrown unchanged — there is no try/catch around the
`retryWithBackoff` call, so no UpstreamError (`CustomError`) wraps it.  The
backoff delays 500, 1000 and 2000 ms themselves are as claimed. -/
theorem c6_counterexample :
    fetchTopLanguages "octocat" (some "tok") [] [] (fin 1) (fin 0) netFail =
      (Except.error (FetchError.transport "ECONNRESET"), [500, 1000, 2000]) ∧
    ¬ IsCustomError (FetchError.transport "ECONNRESET") := by
  constructor
  · norm_num +decide [fetchTopLanguages, retryWithBackoff, netFail]
  · simp [IsCustomError]

/-- C6 (amended): the remote fetch is retried sequentially with exponential
backoff — 3 retries after the initial attempt (4 attempts total), first
delay 500 ms doubling after each failure.  When every attempt fails, the
last underlying transport failure is rethrown unchanged, not wrapped in an
UpstreamError; a structured error payload in a successful response is raised
immediately as a `CustomError` (the structured upstream error) with no
retry and no backoff delay. -/
theorem c6_retry_amended :
    (∀ (username t : String) (excl exr : List String) (sw cw : JSNum)
        (net : ℕ → Except String GqlResponse) (e : ℕ → String),
      username ≠ "" → t ≠ "" → (∀ k, k ≤ 3 → net k = Except.error (e k)) →
      fetchTopLanguages username (some t) excl exr sw cw net =
        (Except.error (FetchError.transport (e 3)), [500, 1000, 2000])) ∧
    (∀ (username t : String) (excl exr : List String) (sw cw : JSNum)
        (net : ℕ → Except String GqlResponse) (body : GqlResponse) (es : List String),
      username ≠ "" → t ≠ "" → net 0 = Except.ok body → body.errors = some es →
      fetchTopLanguages username (some t) excl exr sw cw net =
        (Except.error (FetchError.customError (es.head?.getD "GraphQL API error")), [])) := by
  constructor
  · intro username t excl exr sw cw net e hu ht h
    rw [fetchTopLanguages, if_neg hu]
    simp only [retryWithBackoff_exhausted net e h, if_neg ht]
  · intro username t excl exr sw cw net body es hu ht hnet herr
    rw [fetchTopLanguages, if_neg hu]
    simp only [retryWithBackoff, hnet, herr, if_neg ht]

/-- Witness for the amended C6: a network failing every attempt, and a
network resolving at once with a structured error payload. -/
theorem c6_retry_amended_witness :
    fetchTopLanguages "octocat" (some "tok") [] [] (fin 1) (fin 0) netFail =
      (Except.error (FetchError.transport "ECONNRESET"), [500, 1000, 2000]) ∧
    fetchTopLanguages "octocat" (some "tok") [] [] (fin 1) (fin 0) netGqlErrors =
      (Except.error (FetchError.customError "boom"), []) :=
  ⟨c6_retry_amended.1 "octocat" "tok" [] [] (fin 1) (fin 0) netFail
      (fun _ => "ECONNRESET") (by decide) (by decide) (fun k _ => rfl),
    c6_retry_amended.2 "octocat" "tok" [] [] (fin 1) (fin 0) netGqlErrors
      ⟨some ["boom"], []⟩ ["boom"] (by decide) (by decide) rfl rfl⟩

/-!
Claim C10 — counts are at least 1.
-/

/-- C10: every entry of the returned table was created from at least one
language edge, so its count is at least 1 and the count factor's base in the
weighting step, the real number the count casts to, is never 0. -/
theorem c10_count_positive (excl exr : List String) (sw cw : JSNum) (repos : List Repo) :
    ∀ e ∈ topLangsOf excl exr sw cw repos, 1 ≤ e.count ∧ ((e.count : ℝ) ≠ 0) := by
  intro e he
  obtain ⟨l, hl, _, hcount, _⟩ := topLangs_entry_src excl exr sw cw repos e he
  have h1 : 1 ≤ l.count := buildLangMap_count _ l hl
  have h2 : 1 ≤ e.count := hcount ▸ h1
  exact ⟨h2, Nat.cast_ne_zero.mpr (by omega)⟩

/-- Witness for C10 at a concrete input: the single-edge repository. -/
theorem c10_count_positive_witness :
    1 ≤ entryA0.count ∧ ((entryA0.count : ℝ) ≠ 0) :=
  c10_count_positive [] [] (fin 1) (fin 0) [repoA0] entryA0
    (by rw [topLangs_repoA0]; exact List.mem_singleton.mpr rfl)

/-!
Claim C5 — the trimmer.
-/

/-- C5: for every table, requested count and hide list, the trimmer returns
at most min(requestedCount, 20) entries with the requested count clamped to
[1, 20], never includes a language whose lowercased trimmed name appears in
the hide list under the same transformation, returns the survivors sorted
descending by percent with a missing percent treated as 0, and only returns
entries of the input table (the input itself is never mutated — the model is
a pure function). -/
theorem c5_trim_properties (topLangs : List CardLang) (langs_count : ℤ)
    (hide : Option (List String)) :
    (trimTopLanguages topLangs langs_count hide).length ≤ (min (max langs_count 1) 20).toNat ∧
    (∀ l ∈ trimTopLanguages topLangs langs_count hide,
      ∀ h ∈ hide.getD [], lowercaseTrim l.name ≠ lowercaseTrim h) ∧
    (trimTopLanguages topLangs langs_count hide).Sorted
      (fun a b => b.percent.getD 0 ≤ a.percent.getD 0) ∧
    (∀ l ∈ trimTopLanguages topLangs langs_count hide, l ∈ topLangs) := by
  refine ⟨?_, ?_, ?_, ?_⟩
  · have h1 : clampValue langs_count 1 MAXIMUM_LANGS_COUNT = min (max langs_count 1) 20 := by
      rw [clampValue, MAXIMUM_LANGS_COUNT]; omega
    rw [trimTopLanguages, h1]
    exact List.length_take_le _ _
  · intro l hl h hh heq
    rw [trimTopLanguages] at hl
    have hl2 := List.take_subset _ _ hl
    have hl3 := (List.mem_filter.mp hl2).2
    simp only [decide_not, Bool.not_eq_true] at hl3
    have hmem : lowercaseTrim l.name ∈ (hide.getD []).map lowercaseTrim :=
      List.mem_map.mpr ⟨h, hh, heq.symm⟩
    have hc : ((hide.getD []).map lowercaseTrim).contains (lowercaseTrim l.name) = true :=
      List.elem_iff.mpr hmem
    simp [hc] at hl3
    exact hl3 h hh heq.symm
  · rw [trimTopLanguages]
    have hsorted : List.Pairwise
        (fun a b : CardLang =>
          (fun a b => decide (b.percent.getD 0 ≤ a.percent.getD 0)) a b = true)
        (topLangs.mergeSort (fun a b => decide (b.percent.getD 0 ≤ a.percent.getD 0))) := by
      apply List.sorted_mergeSort
      · intro a b c hab hbc
        simp only [decide_eq_true_eq] at hab hbc ⊢
        exact le_trans hbc hab
      · intro a b
        simp only [Bool.or_eq_true, decide_eq_true_eq]
        exact le_total (b.percent.getD 0) (a.percent.getD 0)
    have hsorted2 : (topLangs.mergeSort
        (fun a b => decide (b.percent.getD 0 ≤ a.percent.getD 0))).Sorted
        (fun a b => b.percent.getD 0 ≤ a.percent.getD 0) :=
      hsorted.imp (fun h => decide_eq_true_eq.mp h)
    exact List.Pairwise.sublist (List.take_sublist _ _) (hsorted2.filter _)
  · intro l hl
    rw [trimTopLanguages] at hl
    have hl2 := List.take_subset _ _ hl
    have hl3 := List.filter_subset _ (fun x hx => hx) hl2
    exact (List.mergeSort_perm topLangs _).mem_iff.mp (List.mem_filter.mp hl3).1

/-- A two-language table used by the trimmer witness. -/
def tableTsPy : List CardLang :=
  [⟨"TypeScript", none, 100, some 60⟩, ⟨"Python", none, 50, some 40⟩]

/-- Witness for C5 at a concrete input: two languages, requested count 1,
hiding "python". -/
theorem c5_trim_properties_witness :
    (trimTopLanguages tableTsPy 1 (some ["PYTHON "])).length ≤ (min (max (1 : ℤ) 1) 20).toNat ∧
    (trimTopLanguages tableTsPy 1 (some ["PYTHON "])).Sorted
      (fun a b => b.percent.getD 0 ≤ a.percent.getD 0) :=
  ⟨(c5_trim_properties tableTsPy 1 (some ["PYTHON "])).1,
    (c5_trim_properties tableTsPy 1 (some ["PYTHON "])).2.2.1⟩

/-!
Claim C7 — the compact cumulative strip.
-/

theorem compactSpansGo_length (ow : ℚ) : ∀ (off : ℚ) (ls : List CardLang),
    (compactSpansGo ow off ls).length = ls.length := by
  intro off ls
  induction ls generalizing off with
  | nil => rfl
  | cons l rest ih => simp [compactSpansGo, ih]

theorem compactSpansGo_get (ow : ℚ) : ∀ (ls : List CardLang) (off : ℚ) (i : ℕ)
    (hi : i < ls.length) (hi2 : i < (compactSpansGo ow off ls).length),
    (compactSpansGo ow off ls).get ⟨i, hi2⟩ =
      (off + ((ls.take i).map (fun l => l.percent.getD 0 / 100 * ow)).sum,
        if (ls.get ⟨i, hi⟩).percent.getD 0 / 100 * ow < 10 then
          (ls.get ⟨i, hi⟩).percent.getD 0 / 100 * ow + 10
        else (ls.get ⟨i, hi⟩).percent.getD 0 / 100 * ow) := by
  intro ls
  induction ls with
  | nil => intro off i hi hi2; simp at hi
  | cons l rest ih =>
    intro off i hi hi2
    match i with
    | 0 => simp [compactSpansGo]
    | k + 1 =>
      have hk : k < rest.length := by simpa using hi
      have hk2 : k < (compactSpansGo ow (off + l.percent.getD 0 / 100 * ow) rest).length := by
        rw [compactSpansGo_length]; exact hk
      have hrec := ih (off + l.percent.getD 0 / 100 * ow) k hk hk2
      simp only [compactSpansGo, List.get_cons_succ, hrec, List.take_succ_cons,
        List.map_cons, List.sum_cons]
      simp only [Prod.mk.injEq]
      exact ⟨by ring, trivial⟩

/-- C7 is false as stated: a computed span under 10 pixels is rendered at
the computed span plus 10, not at exactly 10.  A single language at 2% on a
300-wide card has computed span 5 and is rendered 15 pixels wide. -/
theorem c7_counterexample :
    compactPercentage 300 ⟨"A", none, 0, some 2⟩ = 5 ∧ (5 : ℚ) < 10 ∧
    compactProgressSpans [⟨"A", none, 0, some 2⟩] 300 = [(0, 15)] ∧
    (15 : ℚ) ≠ 10 := by
  refine ⟨by norm_num [compactPercentage], by norm_num, ?_, by norm_num⟩
  norm_num [compactProgressSpans, compactSpansGo]

/-- C7 (amended): in the compact strip each language's computed span is
`percent/100 * (width - 50)`; a computed span under 10 pixels is rendered at
the computed span plus 10 pixels (so thin slices get between 10 and 20
pixels), larger spans are rendered as computed; and each language's
horizontal offset is the cumulative sum of the unfloored computed spans of
all prior languages, so the widening of thin slices does not shift later
spans. -/
theorem c7_compact_amended (langs : List CardLang) (width : ℚ) :
    (compactProgressSpans langs width).length = langs.length ∧
    ∀ (i : ℕ) (hi : i < langs.length) (hi2 : i < (compactProgressSpans langs width).length),
      (compactProgressSpans langs width).get ⟨i, hi2⟩ =
        (((langs.take i).map (compactPercentage width)).sum,
          if compactPercentage width (langs.get ⟨i, hi⟩) < 10 then
            compactPercentage width (langs.get ⟨i, hi⟩) + 10
          else compactPercentage width (langs.get ⟨i, hi⟩)) := by
  constructor
  · exact compactSpansGo_length (width - 50) 0 langs
  · intro i hi hi2
    have h := compactSpansGo_get (width - 50) langs 0 i hi hi2
    have hfun : compactPercentage width =
        fun l : CardLang => l.percent.getD 0 / 100 * (width - 50) := by
      funext l; rfl
    simp only [compactProgressSpans]
    rw [h, hfun]
    simp

/-- A two-language list for the compact layout witness. -/
def langsAB : List CardLang := [⟨"A", none, 0, some 50⟩, ⟨"B", none, 0, some 2⟩]

/-- Witness for the amended C7: on a 300-wide card, language B at 2% starts
at the unfloored offset 125 and is rendered 15 pixels wide. -/
theorem c7_compact_amended_witness :
    (compactProgressSpans langsAB 300).get
        ⟨1, by norm_num [compactProgressSpans, compactSpansGo, langsAB]⟩ = (125, 15) := by
  have h := (c7_compact_amended langsAB 300).2 1 (by norm_num [langsAB])
    (by norm_num [compactProgressSpans, compactSpansGo, langsAB])
  rw [h]
  norm_num [langsAB, compactPercentage]

/-!
Claim C8 — donut-vertical dash segments.
-/

/-- Two languages at 50% each. -/
def langsHalf : List CardLang := [⟨"A", none, 0, some 50⟩, ⟨"B", none, 0, some 50⟩]

/-- C8 records a code bug: the statement `indent += circleLength` of
`renderDonutVerticalLayout` sits after the callback's `return` and never
executes, so every emitted circle carries `stroke-dashoffset = 0` (and a
`stroke-dasharray` equal to the whole circumference rather than the segment
length), instead of the cumulative offsets the spec describes — for two
half-circle languages the second segment should be offset by half the
circumference, which is nonzero.  The 1-based 100 ms stagger delays are as
claimed. -/
theorem c8_donut_vertical_dead_indent :
    renderDonutVerticalCircles langsHalf =
      [⟨getCircleLength 80, 0, 50, 100⟩, ⟨getCircleLength 80, 0, 50, 200⟩] ∧
    donutVerticalCircleLength ⟨"A", none, 0, some 50⟩ = getCircleLength 80 * (1 / 2) ∧
    getCircleLength 80 * (1 / 2) ≠ 0 := by
  refine ⟨?_, ?_, ?_⟩
  · simp [renderDonutVerticalCircles, donutVerticalGo, langsHalf]
  · rw [donutVerticalCircleLength]
    norm_num
  · rw [getCircleLength]
    have hpi := Real.pi_ne_zero
    intro h
    apply hpi
    nlinarith [h]

/-!
Claim C9 — canvas dimensions.
-/

/-- C9: for a trimmed list of n ≥ 1 languages, the normal layout height is
45 + (n+1)*40 (285 at n = 5); the compact layout height is
90 + round(n/2)*25 (165 at n = 6), lowered by 25 when progress is hidden;
the donut layout height is 215 + max(n-5,0)*32 (215 at n = 5) and the donut
layout width is the resolved input width plus 50. -/
theorem c9_dims (card_width : Option ℤ) (n : ℕ) (hn : 1 ≤ n) :
    (renderTopLanguagesDims none false card_width n).height = 45 + ((n : ℤ) + 1) * 40 ∧
    (renderTopLanguagesDims (some "compact") false card_width n).height =
      90 + round ((n : ℚ) / 2) * 25 ∧
    (renderTopLanguagesDims (some "compact") true card_width n).height =
      90 + round ((n : ℚ) / 2) * 25 - 25 ∧
    (renderTopLanguagesDims (some "donut") false card_width n).height =
      215 + max ((n : ℤ) - 5) 0 * 32 ∧
    (renderTopLanguagesDims (some "donut") false card_width n).width =
      resolveCardWidth card_width + 50 ∧
    (renderTopLanguagesDims none false card_width 5).height = 285 ∧
    (renderTopLanguagesDims (some "compact") false card_width 6).height = 165 ∧
    (renderTopLanguagesDims (some "donut") false card_width 5).height = 215 := by
  have hn0 : n ≠ 0 := by omega
  refine ⟨?_, ?_, ?_, ?_, ?_, ?_, ?_, ?_⟩ <;>
    (simp +decide [renderTopLanguagesDims, hn0, calculateNormalLayoutHeight,
      calculateCompactLayoutHeight, calculateDonutLayoutHeight,
      COMPACT_LAYOUT_BASE_HEIGHT]
     try norm_num [round_eq]
     try omega)

/-- Witness for C9: the spec's three named heights and the donut width at
the default card width. -/
theorem c9_dims_witness :
    (renderTopLanguagesDims none false none 5).height = 285 ∧
    (renderTopLanguagesDims (some "compact") false none 6).height = 165 ∧
    (renderTopLanguagesDims (some "donut") false none 5).height = 215 ∧
    (renderTopLanguagesDims (some "donut") false none 5).width = 350 := by
  refine ⟨(c9_dims none 5 (by norm_num)).2.2.2.2.2.1,
    (c9_dims none 6 (by norm_num)).2.2.2.2.2.2.1,
    (c9_dims none 5 (by norm_num)).2.2.2.2.2.2.2, ?_⟩
  rw [(c9_dims none 5 (by norm_num)).2.2.2.2.1]
  decide
